import Mathlib

/-!
A shallow embedding of `src/local/mod.rs` of the `cradle_system` repository.

The repository implements a deadline-callback scheduler: a `Cradle` owns a
vector of `Baby` triggers (each a threshold `time` and an effectful closure
`cry`) and spawns a timer thread.  The thread blocks on one `rx.recv()`;
if that first signal is `Start` it enters a loop that, each iteration,
non-blockingly polls `rx.try_recv()` and then either handles a pending
control signal (`Reset`, `Cry`, `Stop`, anything else a no-op) or, when no
signal is pending, invokes `cry` on every baby whose threshold has been
reached, sleeps one second and increments `elapsed`.

Embedding choices:
* The Rust closure `Box<dyn Fn() -> BoxResult<()>>` takes no argument but
  may read captured interior-mutable state; we model it as a pure function
  of its own invocation count, `cry : Nat → Except ε Unit`, where the
  argument is the number of earlier invocations of this baby's closure.
* The sequence of `try_recv` outcomes observed by the loop is an input
  list `polls : List (Option Signal)`; `none` is the `Err(_)` case of
  `try_recv` (nothing pending), which the source handles in the catch-all
  branch by running a normal tick pass.
* The error type `Box<dyn Error + Send>` is an abstract type `ε`.
* Each loop iteration is recorded as an `Iter` (elapsed at entry, poll
  consumed, indices of babies whose `cry` was invoked in order, whether
  the one-second sleep happened).  Within an iteration the invocations
  happen before the sleep, exactly as in the source (lines 71-78).
-/

/-- The control signals of `enum Signal` (src/local/mod.rs lines 126-132). -/
inductive Signal : Type
  | Reset
  | Cry
  | Start
  | Stop
deriving DecidableEq, Repr

/-- A `Baby` (src/local/mod.rs lines 16-20): a threshold `time` and an
effectful closure `cry`, modelled as a function of its invocation count. -/
structure Baby (ε : Type) : Type where
  time : Nat
  cry : Nat → Except ε Unit

/-- One pass over the baby vector.  With `force = true` this is the
`Signal::Cry` branch (lines 62-65: every baby cries); with `force = false`
it is the conditional pass of the default branch (lines 71-76: a baby
cries iff `elapsed >= baby.time`).  Babies carry their invocation count.
Returns the indices of the babies whose `cry` was invoked (in iteration
order), the updated baby vector, and the first error if some `cry`
returned `Err` — in which case the pass stops there, as `?` does. -/
def firePass {ε : Type} (force : Bool) (elapsed : Nat) :
    List (Baby ε × Nat) → List Nat × List (Baby ε × Nat) × Option ε
  | [] => ([], [], none)
  | (b, c) :: rest =>
    if force ∨ elapsed ≥ b.time then
      match b.cry c with
      | Except.error e => ([0], (b, c + 1) :: rest, some e)
      | Except.ok _ =>
        (0 :: (firePass force elapsed rest).1.map (· + 1),
         (b, c + 1) :: (firePass force elapsed rest).2.1,
         (firePass force elapsed rest).2.2)
    else
      ((firePass force elapsed rest).1.map (· + 1),
       (b, c) :: (firePass force elapsed rest).2.1,
       (firePass force elapsed rest).2.2)

/-- The state owned by the tick loop: the `elapsed` counter (line 55) and
the baby vector (each baby with its invocation count). -/
structure LoopState (ε : Type) : Type where
  elapsed : Nat
  babies : List (Baby ε × Nat)

/-- Trace record of one loop iteration: the `elapsed` value when the
iteration began, the `try_recv` outcome it consumed, the indices of the
babies invoked during the iteration (in order, before any sleep), and
whether the iteration slept. -/
structure Iter : Type where
  elapsed0 : Nat
  poll : Option Signal
  invoked : List Nat
  slept : Bool
deriving DecidableEq, Repr

/-- How an iteration leaves the loop: continue, `break` (Stop), or an
early `return Err(e)` via the `?` operator. -/
inductive LoopExit (ε : Type) : Type
  | next
  | stop
  | fail (e : ε)

/-- One iteration of the tick loop (src/local/mod.rs lines 57-80),
given the `try_recv` outcome: `Reset` zeroes `elapsed`; `Cry` force-fires
every baby; `Stop` breaks; any other pending signal (i.e. `Start`) is the
`_ => {}` no-op; no pending signal runs the conditional pass, sleeps one
tick and increments `elapsed`.  An `Err` from a `cry` exits the loop at
once (no sleep, no increment). -/
def step {ε : Type} (s : LoopState ε) (poll : Option Signal) :
    Iter × LoopState ε × LoopExit ε :=
  match poll with
  | some Signal.Reset =>
    (⟨s.elapsed, poll, [], false⟩, ⟨0, s.babies⟩, LoopExit.next)
  | some Signal.Cry =>
    (⟨s.elapsed, poll, (firePass true s.elapsed s.babies).1, false⟩,
     ⟨s.elapsed, (firePass true s.elapsed s.babies).2.1⟩,
      match (firePass true s.elapsed s.babies).2.2 with
      | some e => LoopExit.fail e
      | none => LoopExit.next)
  | some Signal.Stop =>
    (⟨s.elapsed, poll, [], false⟩, s, LoopExit.stop)
  | some Signal.Start =>
    (⟨s.elapsed, poll, [], false⟩, s, LoopExit.next)
  | none =>
    match (firePass false s.elapsed s.babies).2.2 with
    | some e =>
      (⟨s.elapsed, poll, (firePass false s.elapsed s.babies).1, false⟩,
       ⟨s.elapsed, (firePass false s.elapsed s.babies).2.1⟩, LoopExit.fail e)
    | none =>
      (⟨s.elapsed, poll, (firePass false s.elapsed s.babies).1, true⟩,
       ⟨s.elapsed + 1, (firePass false s.elapsed s.babies).2.1⟩, LoopExit.next)

/-- Result of running the loop on a finite list of poll outcomes:
either the polls ran out with the loop still running, or the loop exited
and the thread closure returned `Ok(())` (after `break`) or `Err(e)`. -/
inductive RunResult (ε : Type) : Type
  | running (s : LoopState ε)
  | finished (r : Except ε Unit)

/-- Run the tick loop (the `loop` of lines 56-81) on a finite prefix of
`try_recv` outcomes, collecting the per-iteration trace. -/
def run {ε : Type} (s : LoopState ε) :
    List (Option Signal) → List Iter × RunResult ε
  | [] => ([], RunResult.running s)
  | p :: ps =>
    match (step s p).2.2 with
    | LoopExit.next =>
      ((step s p).1 :: (run (step s p).2.1 ps).1, (run (step s p).2.1 ps).2)
    | LoopExit.stop => ([(step s p).1], RunResult.finished (Except.ok ()))
    | LoopExit.fail e => ([(step s p).1], RunResult.finished (Except.error e))

/-- The whole timer-thread closure (src/local/mod.rs lines 53-84): a
blocking receive of the first signal; the loop runs only when that first
signal equals `Start`, with `elapsed` starting at `0` and every baby's
invocation count at `0`; any other first signal falls through to the
final `Ok(())`. -/
def threadBody {ε : Type} (babies : List (Baby ε)) (first : Signal)
    (polls : List (Option Signal)) : List Iter × RunResult ε :=
  if first = Signal.Start then
    run ⟨0, babies.map (fun b => (b, 0))⟩ polls
  else ([], RunResult.finished (Except.ok ()))

/-- `Cradle::join` (lines 115-117) waits for the timer thread and returns
its result.  While the loop is still running, `join` blocks (`none`);
once the thread closure has returned, `join` yields its result. -/
def threadJoin {ε : Type} (r : List Iter × RunResult ε) : Option (Except ε Unit) :=
  match r.2 with
  | RunResult.running _ => none
  | RunResult.finished res => some res

/-- Whether the receiving end of the control channel is still alive.
`rx` is owned by the timer-thread closure, so it is dropped exactly when
the closure returns. -/
def rxAlive {ε : Type} : RunResult ε → Bool
  | RunResult.running _ => true
  | RunResult.finished _ => false

/-- Modelled std semantics: `Sender::send` on an `mpsc` channel returns
`Err(SendError)` precisely when the receiver has been dropped.  The
`.unwrap()` applied to it in the `Cradle` methods panics on that `Err`;
a panic is modelled as `none`. -/
def sendUnwrap (alive : Bool) (_sig : Signal) : Option Unit :=
  if alive then some () else none

/-- `Cradle::start` (lines 95-97): `self.tx.send(Signal::Start).unwrap()`. -/
def Cradle.start (alive : Bool) : Option Unit := sendUnwrap alive Signal.Start

/-- `Cradle::reset` (lines 100-102): `self.tx.send(Signal::Reset).unwrap()`. -/
def Cradle.reset (alive : Bool) : Option Unit := sendUnwrap alive Signal.Reset

/-- `Cradle::stop` (lines 105-107): `self.tx.send(Signal::Stop).unwrap()`. -/
def Cradle.stop (alive : Bool) : Option Unit := sendUnwrap alive Signal.Stop

/-- `Cradle::cry` (lines 110-112): `self.tx.send(Signal::Cry).unwrap()`. -/
def Cradle.cry (alive : Bool) : Option Unit := sendUnwrap alive Signal.Cry

/-- All the `cry` calls a pass would make succeed: every baby that is due
(under `force`/threshold) returns `Ok(())` at its current count. -/
def passOk {ε : Type} (force : Bool) (elapsed : Nat)
    (l : List (Baby ε × Nat)) : Prop :=
  ∀ bc ∈ l, (force ∨ elapsed ≥ bc.1.time) → bc.1.cry bc.2 = Except.ok ()

/-- Baby `i` is the first baby whose `cry` fails in the pass: it is due
and returns `Err(e)`, and every earlier due baby returns `Ok(())`. -/
def firstErrorAt {ε : Type} (force : Bool) (elapsed : Nat)
    (l : List (Baby ε × Nat)) (i : Nat) (e : ε) : Prop :=
  (∃ b c, l.get? i = some (b, c) ∧ (force ∨ elapsed ≥ b.time) ∧
    b.cry c = Except.error e)
  ∧ ∀ j b c, j < i → l.get? j = some (b, c) →
      (force ∨ elapsed ≥ b.time) → b.cry c = Except.ok ()

/-- The poll outcomes that produce a trigger-evaluation pass, with the
`force` flag that pass uses: no pending signal evaluates conditionally,
a pending `Cry` evaluates unconditionally. -/
def pollForce : Option Signal → Option Bool
  | none => some false
  | some Signal.Cry => some true
  | _ => none

/-- No baby's closure ever fails, at any invocation count. -/
def neverFails {ε : Type} (l : List (Baby ε × Nat)) : Prop :=
  ∀ bc ∈ l, ∀ n, bc.1.cry n = Except.ok ()

/-! ### Lemmas about a single pass over the baby vector -/

/-- The indices invoked by a pass are strictly increasing: babies are
invoked in registration order. -/
theorem firePass_pairwise {ε : Type} (f : Bool) (el : Nat)
    (l : List (Baby ε × Nat)) : ((firePass f el l).1).Pairwise (· < ·) := by
  induction l with
  | nil => simp [firePass]
  | cons bc rest ih =>
    obtain ⟨b, c⟩ := bc
    simp only [firePass]
    split
    · split
      · simp
      · refine List.Pairwise.cons ?_ ?_
        · intro j hj
          obtain ⟨k, _, rfl⟩ := List.mem_map.mp hj
          omega
        · rw [List.pairwise_map]
          exact ih.imp (fun h => by omega)
    · rw [List.pairwise_map]
      exact ih.imp (fun h => by omega)

/-- Soundness of a pass: only a baby that is due (forced, or with
`elapsed ≥ time`) is ever invoked. -/
theorem mem_firePass {ε : Type} (f : Bool) (el : Nat)
    (l : List (Baby ε × Nat)) (i : Nat) (hi : i ∈ (firePass f el l).1) :
    ∃ b c, l.get? i = some (b, c) ∧ (f = true ∨ el ≥ b.time) := by
  induction l generalizing i with
  | nil => simp [firePass] at hi
  | cons bc rest ih =>
    obtain ⟨b, c⟩ := bc
    simp only [firePass] at hi
    split at hi
    · rename_i hcond
      split at hi
      · simp at hi
        subst hi
        exact ⟨b, c, rfl, hcond⟩
      · rcases List.mem_cons.mp hi with h0 | hmap
        · subst h0
          exact ⟨b, c, rfl, hcond⟩
        · obtain ⟨k, hk, rfl⟩ := List.mem_map.mp hmap
          obtain ⟨b2, c2, hget, hdue⟩ := ih k hk
          exact ⟨b2, c2, hget, hdue⟩
    · obtain ⟨k, hk, rfl⟩ := List.mem_map.mp hi
      obtain ⟨b2, c2, hget, hdue⟩ := ih k hk
      exact ⟨b2, c2, hget, hdue⟩

/-- When every due baby's `cry` succeeds, the pass reports no error. -/
theorem firePass_error_none {ε : Type} (f : Bool) (el : Nat)
    (l : List (Baby ε × Nat)) (hok : passOk f el l) :
    (firePass f el l).2.2 = none := by
  induction l with
  | nil => simp [firePass]
  | cons bc rest ih =>
    obtain ⟨b, c⟩ := bc
    have hrest : passOk f el rest := fun x hx => hok x (List.mem_cons_of_mem _ hx)
    simp only [firePass]
    split
    · rename_i hcond
      have hcry : b.cry c = Except.ok () :=
        hok (b, c) (List.mem_cons_self _ _) hcond
      rw [hcry]
      exact ih hrest
    · exact ih hrest

/-- Completeness of a pass without errors: every due baby is invoked. -/
theorem mem_firePass_of_due {ε : Type} (f : Bool) (el : Nat)
    (l : List (Baby ε × Nat)) (hok : passOk f el l) (i : Nat)
    (b : Baby ε) (c : Nat) (hget : l.get? i = some (b, c))
    (hdue : f = true ∨ el ≥ b.time) : i ∈ (firePass f el l).1 := by
  induction l generalizing i with
  | nil => simp at hget
  | cons bc rest ih =>
    obtain ⟨b0, c0⟩ := bc
    have hrest : passOk f el rest := fun x hx => hok x (List.mem_cons_of_mem _ hx)
    simp only [firePass]
    cases i with
    | zero =>
      simp only [List.get?] at hget
      injection hget with hg
      obtain ⟨rfl, rfl⟩ := Prod.mk.injEq .. ▸ Prod.ext_iff.mp hg
      rw [if_pos hdue]
      have hcry : b.cry c = Except.ok () :=
        hok (b, c) (List.mem_cons_self _ _) hdue
      rw [hcry]
      exact List.mem_cons_self _ _
    | succ j =>
      simp only [List.get?] at hget
      have hmem : j ∈ (firePass f el rest).1 := ih hrest j hget
      split
      · rename_i hcond
        have hcry : b0.cry c0 = Except.ok () :=
          hok (b0, c0) (List.mem_cons_self _ _) hcond
        rw [hcry]
        exact List.mem_cons_of_mem _ (List.mem_map.mpr ⟨j, hmem, rfl⟩)
      · exact List.mem_map.mpr ⟨j, hmem, rfl⟩

/-- A pass only updates invocation counts: the babies themselves (their
thresholds and closures) are unchanged. -/
theorem firePass_babies_eq {ε : Type} (f : Bool) (el : Nat)
    (l : List (Baby ε × Nat)) :
    (firePass f el l).2.1.map Prod.fst = l.map Prod.fst := by
  induction l with
  | nil => simp [firePass]
  | cons bc rest ih =>
    obtain ⟨b, c⟩ := bc
    simp only [firePass]
    split
    · split
      · simp
      · simp only [List.map_cons]
        rw [ih]
    · simp only [List.map_cons]
      rw [ih]

/-- If baby `i` is the first whose `cry` fails, the pass stops exactly
there: it reports that error, and no baby past `i` is invoked. -/
theorem firePass_firstErrorAt {ε : Type} (f : Bool) (el : Nat)
    (l : List (Baby ε × Nat)) (i : Nat) (e : ε)
    (h : firstErrorAt f el l i e) :
    (firePass f el l).2.2 = some e ∧ ∀ j ∈ (firePass f el l).1, j ≤ i := by
  induction l generalizing i with
  | nil =>
    obtain ⟨⟨b, c, hget, _⟩, _⟩ := h
    simp at hget
  | cons bc rest ih =>
    obtain ⟨b0, c0⟩ := bc
    obtain ⟨⟨b, c, hget, hdue, herr⟩, hprev⟩ := h
    cases i with
    | zero =>
      simp only [List.get?] at hget
      injection hget with hg
      obtain ⟨rfl, rfl⟩ := Prod.mk.injEq .. ▸ Prod.ext_iff.mp hg
      simp only [firePass]
      rw [if_pos hdue, herr]
      exact ⟨rfl, by simp⟩
    | succ j =>
      simp only [List.get?] at hget
      have hrest : firstErrorAt f el rest j e := by
        refine ⟨⟨b, c, hget, hdue, herr⟩, ?_⟩
        intro k bk ck hk hgk hdk
        exact hprev (k + 1) bk ck (by omega) hgk hdk
      obtain ⟨iherr, ihle⟩ := ih j hrest
      simp only [firePass]
      split
      · rename_i hcond
        have hcry : b0.cry c0 = Except.ok () :=
          hprev 0 b0 c0 (by omega) rfl hcond
        rw [hcry]
        refine ⟨iherr, ?_⟩
        intro k hk
        rcases List.mem_cons.mp hk with h0 | hmap
        · omega
        · obtain ⟨m, hm, rfl⟩ := List.mem_map.mp hmap
          have := ihle m hm
          omega
      · refine ⟨iherr, ?_⟩
        intro k hk
        obtain ⟨m, hm, rfl⟩ := List.mem_map.mp hk
        have := ihle m hm
        omega

/-! ### Lemmas about whole iterations and runs -/

/-- A pass preserves `neverFails`: only counts change. -/
theorem neverFails_firePass {ε : Type} (f : Bool) (el : Nat)
    (l : List (Baby ε × Nat)) (h : neverFails l) :
    neverFails (firePass f el l).2.1 := by
  intro bc hbc n
  have hmem : bc.1 ∈ ((firePass f el l).2.1).map Prod.fst :=
    List.mem_map_of_mem _ hbc
  rw [firePass_babies_eq] at hmem
  obtain ⟨bc0, hbc0, heq⟩ := List.mem_map.mp hmem
  exact heq ▸ h bc0 hbc0 n

/-- `neverFails` implies `passOk` for any pass. -/
theorem passOk_of_neverFails {ε : Type} (f : Bool) (el : Nat)
    (l : List (Baby ε × Nat)) (h : neverFails l) : passOk f el l :=
  fun bc hbc _ => h bc hbc bc.2

/-- With failure-free babies, no iteration exits the loop with an error. -/
theorem step_exit_ne_fail {ε : Type} (s : LoopState ε) (p : Option Signal)
    (h : neverFails s.babies) (e : ε) :
    (step s p).2.2 ≠ LoopExit.fail e := by
  have hok : ∀ f el, (firePass f el s.babies).2.2 = none := fun f el =>
    firePass_error_none f el s.babies (passOk_of_neverFails f el s.babies h)
  match p with
  | some Signal.Reset => simp [step]
  | some Signal.Cry => simp [step, hok]
  | some Signal.Stop => simp [step]
  | some Signal.Start => simp [step]
  | none => simp [step, hok]

/-- An iteration preserves `neverFails` of the baby vector. -/
theorem step_neverFails {ε : Type} (s : LoopState ε) (p : Option Signal)
    (h : neverFails s.babies) : neverFails (step s p).2.1.babies := by
  have hok : ∀ f el, (firePass f el s.babies).2.2 = none := fun f el =>
    firePass_error_none f el s.babies (passOk_of_neverFails f el s.babies h)
  match p with
  | some Signal.Reset => exact h
  | some Signal.Cry => exact neverFails_firePass true s.elapsed s.babies h
  | some Signal.Stop => exact h
  | some Signal.Start => exact h
  | none =>
    show neverFails (step s none).2.1.babies
    simp only [step, hok]
    exact neverFails_firePass false s.elapsed s.babies h

/-- With failure-free babies, a run never finishes with an error. -/
theorem run_no_error {ε : Type} (polls : List (Option Signal))
    (s : LoopState ε) (h : neverFails s.babies) (e : ε) :
    (run s polls).2 ≠ RunResult.finished (Except.error e) := by
  induction polls generalizing s with
  | nil => simp [run]
  | cons p ps ih =>
    rcases hex : (step s p).2.2 with _ | _ | e2
    · simp only [run, hex]
      exact ih (step s p).2.1 (step_neverFails s p h)
    · simp [run, hex]
    · exact absurd hex (step_exit_ne_fail s p h e2)

/-! ### The claims -/

/-- C1: on a normal tick pass (no control signal pending) in which every
due baby's action succeeds, a baby is invoked iff `elapsed ≥` its
threshold, the invoked indices are strictly increasing (registration
order), a baby with `elapsed <` threshold is not invoked, the iteration
sleeps, and afterwards `elapsed` is incremented by exactly one. -/
theorem normal_tick_pass {ε : Type} (s : LoopState ε)
    (hok : passOk false s.elapsed s.babies) :
    (∀ i, i ∈ (step s none).1.invoked ↔
        ∃ b c, s.babies.get? i = some (b, c) ∧ s.elapsed ≥ b.time)
    ∧ ((step s none).1.invoked).Pairwise (· < ·)
    ∧ (∀ i b c, s.babies.get? i = some (b, c) → s.elapsed < b.time →
        i ∉ (step s none).1.invoked)
    ∧ (step s none).1.slept = true
    ∧ (step s none).2.1.elapsed = s.elapsed + 1
    ∧ (step s none).2.2 = LoopExit.next := by
  have herr : (firePass false s.elapsed s.babies).2.2 = none :=
    firePass_error_none false s.elapsed s.babies hok
  have hstep : step s none =
      (⟨s.elapsed, none, (firePass false s.elapsed s.babies).1, true⟩,
       ⟨s.elapsed + 1, (firePass false s.elapsed s.babies).2.1⟩,
       LoopExit.next) := by
    simp [step, herr]
  rw [hstep]
  have hmem : ∀ i, i ∈ (firePass false s.elapsed s.babies).1 ↔
      ∃ b c, s.babies.get? i = some (b, c) ∧ s.elapsed ≥ b.time := by
    intro i
    constructor
    · intro hi
      obtain ⟨b, c, hget, hdue⟩ := mem_firePass false s.elapsed s.babies i hi
      rcases hdue with hf | hd
      · simp at hf
      · exact ⟨b, c, hget, hd⟩
    · rintro ⟨b, c, hget, hd⟩
      exact mem_firePass_of_due false s.elapsed s.babies hok i b c hget (Or.inr hd)
  refine ⟨hmem, firePass_pairwise false s.elapsed s.babies, ?_, rfl, rfl, rfl⟩
  intro i b c hget hlt hin
  obtain ⟨b2, c2, hget2, hd⟩ := (hmem i).mp hin
  rw [hget] at hget2
  injection hget2 with h
  simp only [Prod.mk.injEq] at h
  obtain ⟨rfl, rfl⟩ := h
  omega

/-- Fixture: a baby with threshold 2 whose action always succeeds. -/
def wBabyOk : Baby String := ⟨2, fun _ => Except.ok ()⟩

/-- Fixture: a baby with threshold 5 whose action always succeeds. -/
def wBabyLate : Baby String := ⟨5, fun _ => Except.ok ()⟩

/-- Fixture: loop state at `elapsed = 3` holding the two babies above. -/
def wState1 : LoopState String := ⟨3, [(wBabyOk, 0), (wBabyLate, 0)]⟩

/-- Every due baby of `wState1` succeeds (they all always succeed). -/
theorem wState1_passOk (f : Bool) : passOk f wState1.elapsed wState1.babies := by
  intro bc hbc hdue
  rcases List.mem_cons.mp hbc with h | h
  · subst h; rfl
  · rcases List.mem_cons.mp h with h2 | h2
    · subst h2; rfl
    · simp at h2

/-- Witness for C1 at `wState1`: the baby with threshold 2 is invoked at
`elapsed = 3`, the baby with threshold 5 is not, and `elapsed` becomes 4. -/
theorem normal_tick_pass_witness :
    passOk false wState1.elapsed wState1.babies
    ∧ (0 ∈ (step wState1 none).1.invoked ↔
        ∃ b c, wState1.babies.get? 0 = some (b, c) ∧ wState1.elapsed ≥ b.time)
    ∧ 1 ∉ (step wState1 none).1.invoked
    ∧ (step wState1 none).2.1.elapsed = wState1.elapsed + 1 := by
  have h := normal_tick_pass wState1 (wState1_passOk false)
  exact ⟨wState1_passOk false, h.1 0,
    h.2.2.1 1 wBabyLate 0 rfl (by norm_num [wState1, wBabyLate]), h.2.2.2.2.1⟩

/-- C2: if baby `i` is the first whose action fails in an evaluation pass
(a normal tick, `pollForce = some false`, or a ForceFire `Cry` pass,
`pollForce = some true`), then no baby past `i` is invoked in that pass,
the iteration exits the loop with that error, the run ends there — later
polls are never consumed, so no baby is ever invoked afterwards — and
`join` returns exactly that first error.  Conversely, on a run whose
babies never fail, the loop never finishes with an error, so `join` (when
it returns) returns success. -/
theorem error_fail_fast {ε : Type} (s : LoopState ε) (p : Option Signal)
    (f : Bool) (i : Nat) (e : ε)
    (hp : pollForce p = some f)
    (hfst : firstErrorAt f s.elapsed s.babies i e) :
    (∀ j ∈ (step s p).1.invoked, j ≤ i)
    ∧ (step s p).2.2 = LoopExit.fail e
    ∧ (∀ rest, run s (p :: rest) =
        ([(step s p).1], RunResult.finished (Except.error e)))
    ∧ (∀ rest, threadJoin (run s (p :: rest)) = some (Except.error e))
    ∧ (∀ (s2 : LoopState ε) (polls : List (Option Signal)) (e2 : ε),
        neverFails s2.babies →
        (run s2 polls).2 ≠ RunResult.finished (Except.error e2)) := by
  have hrest : ∀ rest, (step s p).2.2 = LoopExit.fail e →
      run s (p :: rest) = ([(step s p).1], RunResult.finished (Except.error e)) := by
    intro rest hfail
    simp only [run, hfail]
  have main : (∀ j ∈ (step s p).1.invoked, j ≤ i)
      ∧ (step s p).2.2 = LoopExit.fail e := by
    match p with
    | none =>
      injection hp with hf
      subst hf
      obtain ⟨herr, hle⟩ := firePass_firstErrorAt false s.elapsed s.babies i e hfst
      have hstep : step s none =
          (⟨s.elapsed, none, (firePass false s.elapsed s.babies).1, false⟩,
           ⟨s.elapsed, (firePass false s.elapsed s.babies).2.1⟩,
           LoopExit.fail e) := by
        simp [step, herr]
      rw [hstep]
      exact ⟨hle, rfl⟩
    | some Signal.Cry =>
      injection hp with hf
      subst hf
      obtain ⟨herr, hle⟩ := firePass_firstErrorAt true s.elapsed s.babies i e hfst
      have hstep : step s (some Signal.Cry) =
          (⟨s.elapsed, some Signal.Cry, (firePass true s.elapsed s.babies).1, false⟩,
           ⟨s.elapsed, (firePass true s.elapsed s.babies).2.1⟩,
           LoopExit.fail e) := by
        simp [step, herr]
      rw [hstep]
      exact ⟨hle, rfl⟩
    | some Signal.Reset => simp [pollForce] at hp
    | some Signal.Start => simp [pollForce] at hp
    | some Signal.Stop => simp [pollForce] at hp
  refine ⟨main.1, main.2, fun rest => hrest rest main.2, ?_, ?_⟩
  · intro rest
    rw [hrest rest main.2]
    rfl
  · intro s2 polls e2 h2
    exact run_no_error polls s2 h2 e2

/-- Fixture: a baby with threshold 1 whose action always fails. -/
def wBabyErr : Baby String := ⟨1, fun _ => Except.error "boom"⟩

/-- Fixture: loop state at `elapsed = 3` where the second baby fails. -/
def wState2 : LoopState String := ⟨3, [(wBabyOk, 0), (wBabyErr, 0), (wBabyOk, 0)]⟩

/-- In `wState2`, baby 1 is the first to fail on a normal tick pass. -/
theorem wState2_firstErrorAt :
    firstErrorAt false wState2.elapsed wState2.babies 1 "boom" := by
  constructor
  · exact ⟨wBabyErr, 0, rfl, Or.inr (by norm_num [wState2, wBabyErr]), rfl⟩
  · intro j b c hj hg hdue
    have hj0 : j = 0 := by omega
    subst hj0
    have h2 : some ((wBabyOk, 0) : Baby String × Nat) = some (b, c) := hg
    injection h2 with h3
    simp only [Prod.mk.injEq] at h3
    obtain ⟨rfl, rfl⟩ := h3
    rfl

/-- Witness for C2 at `wState2`: the third baby (index 2, due at
`elapsed = 3`) is not invoked, the run ends at that iteration, and `join`
returns the error. -/
theorem error_fail_fast_witness :
    pollForce none = some false
    ∧ firstErrorAt false wState2.elapsed wState2.babies 1 "boom"
    ∧ (2 ∈ (step wState2 none).1.invoked → (2 : Nat) ≤ 1)
    ∧ run wState2 [none, none] =
        ([(step wState2 none).1], RunResult.finished (Except.error "boom"))
    ∧ threadJoin (run wState2 [none, none]) = some (Except.error "boom") := by
  have h := error_fail_fast wState2 none false 1 "boom" rfl wState2_firstErrorAt
  exact ⟨rfl, wState2_firstErrorAt, h.1 2, h.2.2.1 [none], h.2.2.2.1 [none]⟩

/-- C3: when the loop observes a pending `Cry` (ForceFire) signal and
every baby's action succeeds, every registered baby is invoked exactly
once in that iteration, in registration order, at the current `elapsed`
value; the iteration does not sleep, leaves `elapsed` unchanged, and
continues the loop (re-polls). -/
theorem force_fire {ε : Type} (s : LoopState ε)
    (hok : passOk true s.elapsed s.babies) :
    (∀ i, i ∈ (step s (some Signal.Cry)).1.invoked ↔ i < s.babies.length)
    ∧ ((step s (some Signal.Cry)).1.invoked).Pairwise (· < ·)
    ∧ (∀ i, i < s.babies.length →
        ((step s (some Signal.Cry)).1.invoked).count i = 1)
    ∧ (step s (some Signal.Cry)).1.elapsed0 = s.elapsed
    ∧ (step s (some Signal.Cry)).1.slept = false
    ∧ (step s (some Signal.Cry)).2.1.elapsed = s.elapsed
    ∧ (step s (some Signal.Cry)).2.2 = LoopExit.next := by
  have herr : (firePass true s.elapsed s.babies).2.2 = none :=
    firePass_error_none true s.elapsed s.babies hok
  have hstep : step s (some Signal.Cry) =
      (⟨s.elapsed, some Signal.Cry, (firePass true s.elapsed s.babies).1, false⟩,
       ⟨s.elapsed, (firePass true s.elapsed s.babies).2.1⟩,
       LoopExit.next) := by
    simp [step, herr]
  rw [hstep]
  have hmem : ∀ i, i ∈ (firePass true s.elapsed s.babies).1 ↔
      i < s.babies.length := by
    intro i
    constructor
    · intro hi
      obtain ⟨b, c, hget, _⟩ := mem_firePass true s.elapsed s.babies i hi
      exact (List.get?_eq_some.mp hget).1
    · intro hi
      obtain ⟨bc, hget⟩ : ∃ bc, s.babies.get? i = some bc :=
        ⟨s.babies.get ⟨i, hi⟩, List.get?_eq_get hi⟩
      exact mem_firePass_of_due true s.elapsed s.babies hok i bc.1 bc.2
        (by rw [hget]) (Or.inl rfl)
  have hpw := firePass_pairwise true s.elapsed s.babies
  refine ⟨hmem, hpw, ?_, rfl, rfl, rfl, rfl⟩
  intro i hi
  exact List.count_eq_one_of_mem (hpw.imp (fun hlt => Nat.ne_of_lt hlt))
    ((hmem i).mpr hi)

/-- Witness for C3 at `wState1`: both babies (also the threshold-5 one,
not yet due at `elapsed = 3`) are force-fired exactly once, and `elapsed`
stays 3. -/
theorem force_fire_witness :
    passOk true wState1.elapsed wState1.babies
    ∧ (1 ∈ (step wState1 (some Signal.Cry)).1.invoked ↔ 1 < wState1.babies.length)
    ∧ ((step wState1 (some Signal.Cry)).1.invoked).count 0 = 1
    ∧ (step wState1 (some Signal.Cry)).2.1.elapsed = wState1.elapsed
    ∧ (step wState1 (some Signal.Cry)).1.slept = false := by
  have h := force_fire wState1 (wState1_passOk true)
  exact ⟨wState1_passOk true, h.1 1, h.2.2.1 0 (by norm_num [wState1]),
    h.2.2.2.2.2.1, h.2.2.2.2.1⟩

/-- C4: the timer thread's first receive is the only blocking one, and
the tick loop runs only if that first signal equals `Start`: with any
other first signal the thread terminates at once with `Ok(())`, with an
empty trace — no baby is ever invoked — and `join` returns success. -/
theorem no_fire_before_start {ε : Type} (babies : List (Baby ε))
    (first : Signal) (polls : List (Option Signal)) (h : first ≠ Signal.Start) :
    threadBody babies first polls = ([], RunResult.finished (Except.ok ()))
    ∧ threadJoin (threadBody babies first polls) = some (Except.ok ()) := by
  have hbody : threadBody babies first polls =
      ([], RunResult.finished (Except.ok ())) := by
    simp [threadBody, h]
  exact ⟨hbody, by rw [hbody]; rfl⟩

/-- Witness for C4: a first signal of `Stop` (not `Start`) terminates the
thread with `Ok(())` and an empty trace, despite pending ticks. -/
theorem no_fire_before_start_witness :
    Signal.Stop ≠ Signal.Start
    ∧ threadBody [wBabyOk] Signal.Stop [none, none] =
        ([], RunResult.finished (Except.ok ()))
    ∧ threadJoin (threadBody [wBabyOk] Signal.Stop [none, none]) =
        some (Except.ok ()) := by
  have h := no_fire_before_start [wBabyOk] Signal.Stop [none, none] (by decide)
  exact ⟨by decide, h.1, h.2⟩

/-- C5: when the loop observes a pending `Stop` it breaks at once: no
baby is invoked in that iteration, it does not sleep, later polls are
never consumed (the trace is that single iteration), the thread
terminates with `Ok(())`, and `join` returns. -/
theorem stop_terminates {ε : Type} (s : LoopState ε)
    (rest : List (Option Signal)) :
    run s (some Signal.Stop :: rest) =
      ([⟨s.elapsed, some Signal.Stop, [], false⟩],
       RunResult.finished (Except.ok ()))
    ∧ threadJoin (run s (some Signal.Stop :: rest)) = some (Except.ok ()) :=
  ⟨rfl, rfl⟩

/-- C6: a pending `Reset` sets `elapsed` to 0 in that iteration, invokes
no baby, does not sleep, and continues the loop; moreover in any state a
baby whose threshold exceeds `elapsed` is not invoked by a normal tick
pass, so after a Reset no threshold-based fire happens until `elapsed`
again reaches the threshold. -/
theorem reset_zeroes {ε : Type} (s : LoopState ε) :
    step s (some Signal.Reset) =
      (⟨s.elapsed, some Signal.Reset, [], false⟩, ⟨0, s.babies⟩, LoopExit.next)
    ∧ ∀ (s2 : LoopState ε) (i : Nat) (b : Baby ε) (c : Nat),
        s2.babies.get? i = some (b, c) → s2.elapsed < b.time →
        i ∉ (step s2 none).1.invoked := by
  refine ⟨rfl, ?_⟩
  intro s2 i b c hget hlt hmem
  have hinv : (step s2 none).1.invoked = (firePass false s2.elapsed s2.babies).1 := by
    rcases herr : (firePass false s2.elapsed s2.babies).2.2 <;> simp [step, herr]
  rw [hinv] at hmem
  obtain ⟨b2, c2, hget2, hdue⟩ := mem_firePass false s2.elapsed s2.babies i hmem
  rw [hget] at hget2
  injection hget2 with h
  simp only [Prod.mk.injEq] at h
  obtain ⟨rfl, rfl⟩ := h
  rcases hdue with hf | hd
  · simp at hf
  · omega

/-- Witness for C6 at `wState1`: Reset zeroes `elapsed` without invoking
anyone, and at `elapsed = 3` the threshold-5 baby is not fired by a tick. -/
theorem reset_zeroes_witness :
    step wState1 (some Signal.Reset) =
      (⟨wState1.elapsed, some Signal.Reset, [], false⟩,
       ⟨0, wState1.babies⟩, LoopExit.next)
    ∧ 1 ∉ (step wState1 none).1.invoked := by
  have h := reset_zeroes wState1
  exact ⟨h.1, h.2 wState1 1 wBabyLate 0 rfl (by norm_num [wState1, wBabyLate])⟩

/-- C7: across a loop iteration, processing a pending `Reset` sets
`elapsed` to exactly 0, and every other iteration leaves `elapsed`
unchanged or increments it by one — it never decreases otherwise. -/
theorem elapsed_monotone {ε : Type} (s : LoopState ε) (p : Option Signal) :
    (p = some Signal.Reset → (step s p).2.1.elapsed = 0)
    ∧ (p ≠ some Signal.Reset →
        (step s p).2.1.elapsed = s.elapsed ∨
        (step s p).2.1.elapsed = s.elapsed + 1) := by
  constructor
  · intro hp
    subst hp
    rfl
  · intro hp
    match p with
    | some Signal.Reset => exact absurd rfl hp
    | some Signal.Cry => exact Or.inl rfl
    | some Signal.Stop => exact Or.inl rfl
    | some Signal.Start => exact Or.inl rfl
    | none =>
      rcases herr : (firePass false s.elapsed s.babies).2.2 with _ | e
      · right
        simp [step, herr]
      · left
        simp [step, herr]

/-- Witness for C7 at `wState1`: Reset yields 0; a normal tick yields
`elapsed` or `elapsed + 1`. -/
theorem elapsed_monotone_witness :
    (step wState1 (some Signal.Reset)).2.1.elapsed = 0
    ∧ ((step wState1 none).2.1.elapsed = wState1.elapsed ∨
        (step wState1 none).2.1.elapsed = wState1.elapsed + 1) :=
  ⟨(elapsed_monotone wState1 (some Signal.Reset)).1 rfl,
   (elapsed_monotone wState1 none).2 (by decide)⟩

/-- C8: a `Start` signal observed by the running loop is the `_ => {}`
no-op: the iteration invokes no baby, does not sleep, changes neither
`elapsed` nor the baby vector (counts included), and continues. -/
theorem start_ignored {ε : Type} (s : LoopState ε) :
    step s (some Signal.Start) =
      (⟨s.elapsed, some Signal.Start, [], false⟩, s, LoopExit.next) := rfl

/-- C9: when the first signal is `Start` and the first poll finds nothing
pending, the first trigger-evaluation pass happens immediately (it is the
first iteration of the trace), at `elapsed = 0`, with the sleep only after
the invocations; provided no action fails, every baby registered with
threshold 0 is invoked in that very first pass. -/
theorem first_pass_at_zero {ε : Type} (babies : List (Baby ε))
    (rest : List (Option Signal))
    (hok : passOk false 0 (babies.map (fun b => (b, 0)))) :
    (threadBody babies Signal.Start (none :: rest)).1.head? =
      some (step ⟨0, babies.map (fun b => (b, 0))⟩ none).1
    ∧ (step ⟨0, babies.map (fun b => (b, 0))⟩ none).1.elapsed0 = 0
    ∧ (step ⟨0, babies.map (fun b => (b, 0))⟩ none).1.slept = true
    ∧ ∀ i b, babies.get? i = some b → b.time = 0 →
        i ∈ (step ⟨0, babies.map (fun b => (b, 0))⟩ none).1.invoked := by
  have herr : (firePass false 0 (babies.map (fun b => (b, 0)))).2.2 = none :=
    firePass_error_none false 0 _ hok
  have hstep : step ⟨0, babies.map (fun b => (b, 0))⟩ none =
      (⟨0, none, (firePass false 0 (babies.map (fun b => (b, 0)))).1, true⟩,
       ⟨0 + 1, (firePass false 0 (babies.map (fun b => (b, 0)))).2.1⟩,
       LoopExit.next) := by
    simp [step, herr]
  refine ⟨?_, by rw [hstep], by rw [hstep], ?_⟩
  · have hbody : threadBody babies Signal.Start (none :: rest) =
        run ⟨0, babies.map (fun b => (b, 0))⟩ (none :: rest) := rfl
    rw [hbody]
    have hex : (step (⟨0, babies.map (fun b => (b, 0))⟩ : LoopState ε) none).2.2 =
        LoopExit.next := by rw [hstep]
    simp only [run, hex]
    rfl
  · intro i b hget htime
    rw [hstep]
    have hget2 : (babies.map (fun b => (b, 0))).get? i = some (b, 0) := by
      rw [List.get?_map, hget]
      rfl
    exact mem_firePass_of_due false 0 _ hok i b 0 hget2 (Or.inr (by omega))

/-- Fixture: a baby with threshold 0 whose action always succeeds. -/
def wBabyZero : Baby String := ⟨0, fun _ => Except.ok ()⟩

/-- Witness for C9: with a threshold-0 baby and a threshold-5 baby
registered before `Start`, the threshold-0 baby (index 0) is invoked in
the very first pass, which runs at `elapsed = 0`. -/
theorem first_pass_at_zero_witness :
    passOk false 0 ([wBabyZero, wBabyLate].map (fun b => (b, 0)))
    ∧ (step ⟨0, [wBabyZero, wBabyLate].map (fun b => (b, 0))⟩ none).1.elapsed0 = 0
    ∧ 0 ∈ (step ⟨0, [wBabyZero, wBabyLate].map (fun b => (b, 0))⟩ none).1.invoked := by
  have hok : passOk false 0 (([wBabyZero, wBabyLate] :
      List (Baby String)).map (fun b => (b, 0))) := by
    intro bc hbc hdue
    rcases List.mem_cons.mp hbc with h | h
    · subst h; rfl
    · rcases List.mem_cons.mp h with h2 | h2
      · subst h2; rfl
      · simp at h2
  have h := first_pass_at_zero [wBabyZero, wBabyLate] [] hok
  exact ⟨hok, h.2.1, h.2.2.2 0 wBabyZero rfl rfl⟩

/-- C10: once the timer thread has terminated — its closure returned, so
the receiver `rx` it owned is dropped — every later `start`, `reset`,
`stop` or `cry` call sends on a disconnected channel: the send fails and
the `.unwrap()` panics (modelled as `none`). -/
theorem control_sends_panic {ε : Type} (babies : List (Baby ε))
    (first : Signal) (polls : List (Option Signal)) (res : Except ε Unit)
    (h : (threadBody babies first polls).2 = RunResult.finished res) :
    Cradle.start (rxAlive (threadBody babies first polls).2) = none
    ∧ Cradle.reset (rxAlive (threadBody babies first polls).2) = none
    ∧ Cradle.stop (rxAlive (threadBody babies first polls).2) = none
    ∧ Cradle.cry (rxAlive (threadBody babies first polls).2) = none := by
  rw [h]
  exact ⟨rfl, rfl, rfl, rfl⟩

/-- Witness for C10: after a run terminated by a `Stop` signal, all four
control methods panic. -/
theorem control_sends_panic_witness :
    (threadBody [wBabyOk] Signal.Start [some Signal.Stop]).2 =
      RunResult.finished (Except.ok ())
    ∧ Cradle.start (rxAlive (threadBody [wBabyOk] Signal.Start
        [some Signal.Stop]).2) = none
    ∧ Cradle.cry (rxAlive (threadBody [wBabyOk] Signal.Start
        [some Signal.Stop]).2) = none := by
  have h := control_sends_panic [wBabyOk] Signal.Start [some Signal.Stop]
    (Except.ok ()) rfl
  exact ⟨rfl, h.1, h.2.2.2⟩
